import Mathlib

/-!
Verification model of the pansou asynchronous plugin dispatch and caching
engine.  Go code is shallowly embedded: Go strings are modelled as Lean
strings (rune sequences; byte-level operations such as URL percent-decoding
are modelled over the UTF-8 byte list of a string), Go `time.Time` values are
modelled as `Int` seconds with `0` denoting the zero time (all real
timestamps are positive), maps with deterministic insertion order are
modelled as association lists, and the plugin registry is modelled as a
lookup function.  Floating point time scores are exact integers in the
source, so scores are modelled as `Int`.
-/

namespace PanSou

/-- ASCII lowercase of one character.  Models the effect of Go
`strings.ToLower` on the cased characters appearing in this code base
(ASCII letters; CJK characters are unchanged by Go as well). -/
def lowerChar (c : Char) : Char :=
  if 'A' ≤ c ∧ c ≤ 'Z' then Char.ofNat (c.toNat + 32) else c

/-- Model of Go `strings.ToLower`. -/
def goToLower (s : String) : String := String.mk (s.data.map lowerChar)

/-- Model of Go `strings.Contains` (substring test).  Byte-level containment
of valid UTF-8 patterns coincides with rune-level containment. -/
def goContains (s sub : String) : Bool :=
  s.data.tails.any (fun t => sub.data.isPrefixOf t)

/-- Model of Go `strings.HasPrefix`. -/
def goHasPref (s pre : String) : Bool := pre.data.isPrefixOf s.data

/-- ASCII whitespace test; models `unicode.IsSpace` on the inputs that occur
here. -/
def isSpaceChar (c : Char) : Bool :=
  c = ' ' || c = '\t' || c = '\n' || c = '\r'

/-- Model of Go `strings.TrimSpace`. -/
def goTrimSpace (s : String) : String :=
  String.mk (((s.data.dropWhile isSpaceChar).reverse.dropWhile isSpaceChar).reverse)

/-- Split a character list at every occurrence of `sep`; accumulator variant.
Models Go `strings.Split` with a one-character separator. -/
def splitCharAux (sep : Char) : List Char → List Char → List (List Char)
  | [], cur => [cur.reverse]
  | c :: cs, cur =>
    if c = sep then cur.reverse :: splitCharAux sep cs []
    else splitCharAux sep cs (c :: cur)

/-- Model of Go `strings.Split(s, sep)` for a one-character separator. -/
def goSplitOnChar (sep : Char) (s : String) : List String :=
  (splitCharAux sep s.data []).map String.mk

/-- First component of Go `strings.SplitN(s, "-", 2)`: the prefix of `s`
before the first dash (or all of `s` when there is no dash). -/
def prefixBeforeDash (s : String) : String :=
  String.mk (s.data.takeWhile (fun c => c != '-'))

/-- UTF-8 encoding of one code point, as a list of byte values. -/
def utf8EncodeCharNat (n : Nat) : List Nat :=
  if n < 128 then [n]
  else if n < 2048 then [192 + n / 64, 128 + n % 64]
  else if n < 65536 then [224 + n / 4096, 128 + (n / 64) % 64, 128 + n % 64]
  else [240 + n / 262144, 128 + (n / 4096) % 64, 128 + (n / 64) % 64, 128 + n % 64]

/-- The UTF-8 bytes of a string; Go strings are exactly these byte lists. -/
def utf8Bytes (s : String) : List Nat := s.data.flatMap (fun c => utf8EncodeCharNat c.toNat)

/-- Value of one hexadecimal digit byte, if it is one. -/
def hexVal (b : Nat) : Option Nat :=
  if 48 ≤ b ∧ b ≤ 57 then some (b - 48)
  else if 65 ≤ b ∧ b ≤ 70 then some (b - 55)
  else if 97 ≤ b ∧ b ≤ 102 then some (b - 87)
  else none

/-- Percent-decoding of a byte list, Go `url.QueryUnescape` semantics:
`%XX` decodes to the byte `XX`, `+` (byte 43) decodes to space, a malformed
escape is an error (`none`). -/
def percentDecode : List Nat → Option (List Nat)
  | [] => some []
  | 37 :: a :: b :: rest =>
    match hexVal a, hexVal b, percentDecode rest with
    | some ha, some hb, some r => some ((16 * ha + hb) :: r)
    | _, _, _ => none
  | 37 :: _ => none
  | 43 :: rest => (percentDecode rest).map (fun r => 32 :: r)
  | c :: rest => (percentDecode rest).map (fun r => c :: r)

/-- Model of `normalizeUrl` (search result merge file): decode the URL with
`url.QueryUnescape`, falling back to the raw URL on a decode error.  The
result is represented as the byte list of the decoded Go string. -/
def normalizeUrl (url : String) : List Nat :=
  match percentDecode (utf8Bytes url) with
  | some d => d
  | none => utf8Bytes url

/-! ## Data model (`pansou/model`) -/

/-- One download pointer inside a result (`model.Link`).  The `Type` field of
the Go struct is named `TypeTag` here because `Type` is reserved in Lean. -/
structure Link where
  URL : String
  TypeTag : String
  Password : String
  WorkTitle : String
  Datetime : Int
deriving DecidableEq, Inhabited

/-- One resource record produced by a searcher (`model.SearchResult`). -/
structure SearchResult where
  UniqueID : String
  MessageID : String
  Title : String
  Content : String
  Datetime : Int
  Channel : String
  Tags : List String
  Images : List String
  Links : List Link
deriving DecidableEq, Inhabited

/-- One deduplicated output link (`model.MergedLink`). -/
structure MergedLink where
  URL : String
  Password : String
  Note : String
  Datetime : Int
  Source : String
  Images : List String
deriving DecidableEq, Inhabited

/-- Model of `model.MergedLinks`: a map from cloud-type tag to an ordered
link list, modelled as an association list in insertion order. -/
abbrev MergedLinks := List (String × List MergedLink)

/-- The data the dispatcher reads off one registered plugin: its
`Priority()` and `SkipServiceFilter()` answers. -/
structure PluginInfo where
  priority : Int
  skipServiceFilter : Bool
deriving DecidableEq, Inhabited

/-- The global plugin registry, as the lookup function `GetPluginByName`. -/
abbrev Registry := String → Option PluginInfo

/-! ## Scoring and ranking (`sortResultsByTimeAndKeywords` and helpers) -/

/-- The ordered priority keyword list of the result sorter file. -/
def priorityKeywords : List String :=
  ["合集", "系列", "全", "完", "最新", "附", "complete"]

/-- The loop body of `getKeywordPriority`: walk the keyword list with its
index, returning `(len - i) * 70` at the first keyword contained in the
(already lowercased) title. -/
def keywordLoop (t : String) : List String → Nat → Int
  | [], _ => 0
  | kw :: rest, i =>
    if goContains t kw then ((priorityKeywords.length : Int) - (i : Int)) * 70
    else keywordLoop t rest (i + 1)

/-- Model of `getKeywordPriority` (result sorter file): first matching
priority keyword in the case-folded title scores `(len - index) * 70`. -/
def getKeywordPriority (title : String) : Int :=
  keywordLoop (goToLower title) priorityKeywords 0

/-- Model of `getResultSource` / `determineResultSource`: provenance string
of a result (the two Go functions have identical bodies). -/
def getResultSource (r : SearchResult) : String :=
  if r.Channel != "" then "tg:" ++ r.Channel
  else if r.UniqueID != "" && goContains r.UniqueID "-" then
    "plugin:" ++ prefixBeforeDash r.UniqueID
  else "unknown"

/-- Model of `getPluginPriorityByName`: registry lookup, default level 3. -/
def getPluginPriorityByName (registry : Registry) (name : String) : Int :=
  match registry name with
  | some p => p.priority
  | none => 3

/-- Model of `getPluginLevelBySource`; the `sync.Map` memo cache is a pure
lookup and is omitted. -/
def getPluginLevelBySource (registry : Registry) (source : String) : Int :=
  let parts := goSplitOnChar ':' source
  if parts.length ≠ 2 then 3
  else if parts.headD "" == "tg" then 3
  else if parts.headD "" == "plugin" then getPluginPriorityByName registry (parts.getD 1 "")
  else 3

/-- The `switch level` of `getPluginLevelScore`. -/
def levelScore (level : Int) : Int :=
  if level = 1 then 1000
  else if level = 2 then 500
  else if level = 3 then 0
  else if level = 4 then -200
  else 0

/-- Model of `getPluginLevelScore`. -/
def getPluginLevelScore (registry : Registry) (source : String) : Int :=
  levelScore (getPluginLevelBySource registry source)

/-- Model of `calculateTimeScore`.  Times are seconds; the Go float day
difference `daysDiff <= k` is the exact integer bound `now - dt <= k * 86400`. -/
def calculateTimeScore (now datetime : Int) : Int :=
  if datetime = 0 then 0
  else
    let d := now - datetime
    if d ≤ 1 * 86400 then 500
    else if d ≤ 3 * 86400 then 400
    else if d ≤ 7 * 86400 then 300
    else if d ≤ 30 * 86400 then 200
    else if d ≤ 90 * 86400 then 100
    else if d ≤ 365 * 86400 then 50
    else 20

/-- Model of the `ResultScore` struct of the result sorter file. -/
structure ResultScore where
  Result : SearchResult
  TimeScore : Int
  KeywordScore : Int
  PluginScore : Int
  TotalScore : Int
deriving DecidableEq, Inhabited

/-- Score computation of step 1 of `sortResultsByTimeAndKeywords`. -/
def mkScore (registry : Registry) (now : Int) (r : SearchResult) : ResultScore :=
  let t := calculateTimeScore now r.Datetime
  let k := getKeywordPriority r.Title
  let p := getPluginLevelScore registry (getResultSource r)
  ⟨r, t, k, p, t + k + p⟩

/-- The inner `j` loop of the exchange sort in `sortResultsByTimeAndKeywords`
for one fixed outer index: carry the current element at position `i`, swap it
with any strictly larger later element.  Returns the final element at
position `i` and the later positions after the swaps. -/
def innerPass : ResultScore → List ResultScore → ResultScore × List ResultScore
  | x, [] => (x, [])
  | x, y :: ys =>
    if x.TotalScore < y.TotalScore then
      let r := innerPass y ys
      (r.1, x :: r.2)
    else
      let r := innerPass x ys
      (r.1, y :: r.2)

/-- The outer `i` loop of the exchange sort, with a fuel argument (the fuel
is instantiated with the list length, which suffices because `innerPass`
preserves length). -/
def exchangeSortGo : Nat → List ResultScore → List ResultScore
  | 0, _ => []
  | _, [] => []
  | n + 1, x :: xs =>
    let r := innerPass x xs
    r.1 :: exchangeSortGo n r.2

/-- The double swap loop of step 2 of `sortResultsByTimeAndKeywords`. -/
def exchangeSort (l : List ResultScore) : List ResultScore :=
  exchangeSortGo l.length l

/-- Model of `sortResultsByTimeAndKeywords` (result sorter file): score every
result, run the exchange sort on the scores, write the results back. -/
def sortResultsByTimeAndKeywords (registry : Registry) (now : Int)
    (results : List SearchResult) : List SearchResult :=
  (exchangeSort (results.map (mkScore registry now))).map (fun s => s.Result)

/-- The total score the sorter assigns to one result. -/
def totalScoreOfResult (registry : Registry) (now : Int) (r : SearchResult) : Int :=
  (mkScore registry now r).TotalScore

/-! ## Result list composition in `Search` (service/search_service.go) -/

/-- The keep-condition of the `Results` filter in `Search`: non-zero
`Datetime` or a positive keyword priority. -/
def resultKeptInResults (r : SearchResult) : Bool :=
  !(r.Datetime == 0) || decide ((0 : Int) < getKeywordPriority r.Title)

/-- The `filteredForResults` list `Search` places into the `Results` field:
the merged results, sorted, then filtered by `resultKeptInResults`. -/
def composeFilteredResults (registry : Registry) (now : Int)
    (allResults : List SearchResult) : List SearchResult :=
  (sortResultsByTimeAndKeywords registry now allResults).filter resultKeptInResults

/-! ## Link grouping `mergeResultsByType` (search result merge file) -/

/-- Abstraction of the regex-based link-title pairing stanza of
`mergeResultsByType`: `extractLinkTitlePairs` on the content plus the
`matchLinksWithoutNewlines` fallback.  The claims under verification are
independent of the produced pairing, so it is kept as a universally
quantified parameter rather than re-implementing Go regular expressions. -/
abbrev TitlePairsFn := String → List Link → List (String × String)

/-- Abstraction of `util.CutTitleByKeywords` (whose source is outside this
repository excerpt); the claims do not depend on the produced note text. -/
abbrev CutTitleFn := String → String

/-- Association list lookup, modelling a Go map read. -/
def lookupStr {α : Type} (m : List (String × α)) (k : String) : Option α :=
  (m.find? (fun e => e.1 == k)).map (fun e => e.2)

/-- Model of `shouldSkipFilterForResult`: results whose `UniqueID` has the
`plugin-id` shape ask the named plugin for `SkipServiceFilter()`. -/
def shouldSkipFilterForResult (registry : Registry) (r : SearchResult) : Bool :=
  if r.UniqueID != "" && goContains r.UniqueID "-" then
    match registry (prefixBeforeDash r.UniqueID) with
    | some p => p.skipServiceFilter
    | none => false
  else false

/-- Model of `determineResultSource` (same body as `getResultSource`). -/
def determineResultSource (r : SearchResult) : String := getResultSource r

/-- Model of `determineLinkType` (simplified link classifier of the search
result merge file). -/
def determineLinkType (url : String) : String :=
  let u := goToLower url
  if goContains u "quark" then "quark"
  else if goContains u "baidu" then "baidu"
  else if goContains u "xunlei" then "xunlei"
  else if goContains u "aliyundrive" || goContains u "alipan" then "aliyun"
  else if goContains u "uc.cn" then "uc"
  else if goContains u "123pan" || goContains u "123684" then "123"
  else if goContains u "115" then "115"
  else if goContains u "tianyi" then "tianyi"
  else if goContains u "caiyun.139" then "mobile"
  else if goContains u "pikpak" then "pikpak"
  else if goHasPref u "magnet:" then "magnet"
  else if goHasPref u "ed2k:" then "ed2k"
  else "unknown"

/-- The prefix-match fallback of the title lookup (map iteration modelled in
list order). -/
def chooseFallbackTitle (m : List (String × String)) (dflt url : String) : String :=
  match m.find? (fun e => goHasPref e.1 url) with
  | some e => e.2
  | none => dflt

/-- The title chosen for one link: `WorkTitle` first, then the exact pairing
map entry, then a prefix match, then the result title. -/
def chooseLinkTitle (linkTitleMap : List (String × String)) (resultTitle : String)
    (link : Link) : String :=
  if link.WorkTitle != "" then link.WorkTitle
  else
    match lookupStr linkTitleMap link.URL with
    | some t => if t != "" then t else chooseFallbackTitle linkTitleMap resultTitle link.URL
    | none => chooseFallbackTitle linkTitleMap resultTitle link.URL

/-- The per-link body of the main loop of `mergeResultsByType`: title
selection, the service-layer keyword filter (honouring
`shouldSkipFilterForResult`), source attribution, note trimming, and the
per-link timestamp preference. -/
def mergedLinkOfLink (registry : Registry) (keyword : String) (cutTitle : CutTitleFn)
    (r : SearchResult) (linkTitleMap : List (String × String)) (link : Link) :
    Option MergedLink :=
  let title := chooseLinkTitle linkTitleMap r.Title link
  let skipKeywordFilter := shouldSkipFilterForResult registry r
  if !skipKeywordFilter && keyword != "" &&
      !(goContains (goToLower title) (goToLower keyword)) then none
  else
    let source := determineResultSource r
    let title2 := cutTitle title
    let linkDatetime := if link.Datetime != 0 then link.Datetime else r.Datetime
    some ⟨link.URL, link.Password, title2, linkDatetime, source, r.Images⟩

/-- The candidate `MergedLink`s one result contributes, in link order. -/
def resultCandidates (pairsFn : TitlePairsFn) (cutTitle : CutTitleFn)
    (registry : Registry) (keyword : String) (r : SearchResult) : List MergedLink :=
  let linkTitleMap := pairsFn r.Content r.Links
  r.Links.filterMap (mergedLinkOfLink registry keyword cutTitle r linkTitleMap)

/-- All candidate links of a result list, in traversal order. -/
def mergedCandidates (pairsFn : TitlePairsFn) (cutTitle : CutTitleFn)
    (registry : Registry) (keyword : String) (results : List SearchResult) :
    List MergedLink :=
  results.flatMap (resultCandidates pairsFn cutTitle registry keyword)

/-- Replace the value stored under key `k` in an association list. -/
def updateAssoc (m : List (String × MergedLink)) (k : String) (v : MergedLink) :
    List (String × MergedLink) :=
  m.map (fun e => if e.1 == k then (k, v) else e)

/-- The `uniqueLinks` update of `mergeResultsByType`: on a duplicate URL the
candidate with the strictly later `Datetime` replaces the stored one. -/
def insertUnique (m : List (String × MergedLink)) (ml : MergedLink) :
    List (String × MergedLink) :=
  match lookupStr m ml.URL with
  | some ex => if ex.Datetime < ml.Datetime then updateAssoc m ml.URL ml else m
  | none => m ++ [(ml.URL, ml)]

/-- The URL-keyed dedup map built by the main loop of `mergeResultsByType`. -/
def uniqueLinksMap (cands : List MergedLink) : List (String × MergedLink) :=
  cands.foldl insertUnique []

/-- The per-link step of `collectOrderedLinks`: emit the deduped entry for a
URL at its first occurrence. -/
def collectOrderedStep (uniq : List (String × MergedLink)) (acc : List MergedLink)
    (link : Link) : List MergedLink :=
  match lookupStr uniq link.URL with
  | some ml => if acc.any (fun ex => ex.URL == link.URL) then acc else acc ++ [ml]
  | none => acc

/-- Model of `collectOrderedLinks`: walk the results and their links in
original order, collecting each unique URL once. -/
def collectOrderedLinks (results : List SearchResult)
    (uniq : List (String × MergedLink)) : List MergedLink :=
  results.foldl (fun acc r => r.Links.foldl (collectOrderedStep uniq) acc) []

/-- Append a link to the bucket of tag `t`, creating the bucket on first
use (models `mergedLinks[linkType] = append(...)`). -/
def insertBucket : MergedLinks → String → MergedLink → MergedLinks
  | [], t, ml => [(t, [ml])]
  | b :: rest, t, ml =>
    if b.1 == t then (b.1, b.2 ++ [ml]) :: rest
    else b :: insertBucket rest t ml

/-- The grouping loop of `mergeResultsByType`. -/
def groupByType (links : List MergedLink) : MergedLinks :=
  links.foldl (fun m ml => insertBucket m (determineLinkType ml.URL) ml) []

/-- Model of `filterLinksByCloudTypes`. -/
def filterLinksByCloudTypes (m : MergedLinks) (cloudTypes : List String) : MergedLinks :=
  let allowed := cloudTypes.map (fun c => goToLower (goTrimSpace c))
  m.filter (fun b => allowed.contains (goToLower b.1))

/-- Model of `mergeResultsByType` (search result merge file).  The Go loop
interleaves candidate construction with the `uniqueLinks` map update; the
map is never read during candidate construction, so the phases are staged
here: candidates, dedup map, ordered collection, grouping, cloud-type
filter. -/
def mergeResultsByType (pairsFn : TitlePairsFn) (cutTitle : CutTitleFn)
    (registry : Registry) (results : List SearchResult) (keyword : String)
    (cloudTypes : List String) : MergedLinks :=
  let cands := mergedCandidates pairsFn cutTitle registry keyword results
  let uniq := uniqueLinksMap cands
  let ordered := collectOrderedLinks results uniq
  let grouped := groupByType ordered
  if cloudTypes.length > 0 then filterLinksByCloudTypes grouped cloudTypes else grouped

/-- All output links of a `MergedLinks` map, across the buckets. -/
def flattenMergedLinks (m : MergedLinks) : List MergedLink :=
  (m.map (fun b => b.2)).flatten

/-- The response fields `Search` composes after merging the sub-search
results: the filtered, sorted `Results` list and the `MergedByType`
grouping, the latter computed from the full unfiltered result list. -/
structure SearchResponseModel where
  Results : List SearchResult
  MergedByType : MergedLinks
deriving DecidableEq

/-- Model of the response-composition tail of `Search` (after the TG and
plugin result lists have been merged into `allResults`). -/
def composeSearchResponse (pairsFn : TitlePairsFn) (cutTitle : CutTitleFn)
    (registry : Registry) (now : Int) (allResults : List SearchResult)
    (keyword : String) (cloudTypes : List String) : SearchResponseModel :=
  ⟨composeFilteredResults registry now allResults,
   mergeResultsByType pairsFn cutTitle registry allResults keyword cloudTypes⟩

/-! ## Async plugin base: main-cache updates (plugin cache management file) -/

/-- One invocation of the injected `mainCacheUpdater`. -/
structure MainCacheWrite where
  key : String
  results : List SearchResult
  isFinal : Bool
deriving DecidableEq

/-- The mutable state of one `BaseAsyncPlugin` relevant to cache updates:
the `finalUpdateTracker` key set and the sequence of `mainCacheUpdater`
invocations performed so far. -/
structure AsyncPluginState where
  tracker : List String
  writes : List MainCacheWrite
deriving DecidableEq

/-- The text Go `fmt` produces for a `%d` verb applied to a string value
(the `dataHash` in the source formats the string `UniqueID` with `%d`). -/
def fmtDStr (s : String) : String := "%!d(string=" ++ s ++ ")"

/-- The `dataHash` of `updateMainCacheWithFinal`: result count and first
`UniqueID`, plus the last `UniqueID` when there is more than one result.
Only evaluated on non-empty lists. -/
def dataHashOf (results : List SearchResult) : String :=
  let base := toString results.length ++ "_" ++ fmtDStr (results.headD default).UniqueID
  if results.length > 1 then base ++ "_" ++ fmtDStr (results.getLastD default).UniqueID
  else base

/-- The `updateKey` of `updateMainCacheWithFinal`: plugin name, main cache
key, data hash and the `isFinal` flag. -/
def updateKeyOf (name cacheKey : String) (results : List SearchResult)
    (isFinal : Bool) : String :=
  "final_" ++ name ++ "_" ++ cacheKey ++ "_" ++ dataHashOf results ++ "_" ++
    (if isFinal then "true" else "false")

/-- Model of `updateMainCacheWithFinal`: return unchanged when the updater is
absent, the cache key is empty, or the result list is empty; otherwise skip
when the tracker already holds the update key, else mark the key and invoke
the updater.  `hasUpdater` models `mainCacheUpdater != nil`. -/
def updateMainCacheWithFinal (hasUpdater : Bool) (name : String)
    (st : AsyncPluginState) (cacheKey : String) (results : List SearchResult)
    (isFinal : Bool) : AsyncPluginState :=
  if !hasUpdater || cacheKey == "" then st
  else if results.length == 0 then st
  else
    let key := updateKeyOf name cacheKey results isFinal
    if st.tracker.contains key then st
    else ⟨key :: st.tracker, st.writes ++ [⟨cacheKey, results, isFinal⟩]⟩

/-! ## Async plugin base: dispatch timeout branch and background merge
(plugin/base_async.go) -/

/-- Model of the `cachedResponse` entries of the per-plugin in-memory
response cache. -/
structure CachedResponse where
  Results : List SearchResult
  Timestamp : Int
  Complete : Bool
  LastAccess : Int
  AccessCount : Int
deriving DecidableEq

/-- What the response-timeout branch of `AsyncSearch` produces: the returned
list, the new per-plugin cache entry for the plugin-specific key, and the
plugin state after the main-cache promotion attempt. -/
structure AsyncTimeoutOutcome where
  returned : List SearchResult
  pluginCache : Option CachedResponse
  state : AsyncPluginState
deriving DecidableEq

/-- The placeholder path of the timeout branch: store an empty
`Complete=false` entry, attempt a non-final main-cache promotion with the
empty list, and return the empty list. -/
def asyncTimeoutPlaceholder (hasUpdater : Bool) (name mainCacheKey : String)
    (now : Int) (st : AsyncPluginState) : AsyncTimeoutOutcome :=
  ⟨[], some ⟨[], now, false, now, 1⟩,
   updateMainCacheWithFinal hasUpdater name st mainCacheKey [] false⟩

/-- Model of the `time.After(responseTimeout)` branch of `AsyncSearch`
(base_async.go): when a non-empty partial cache entry exists it is returned
(with its access statistics refreshed by `recordCacheAccess`); otherwise the
empty placeholder path runs. -/
def asyncSearchOnTimeout (hasUpdater : Bool) (name mainCacheKey : String)
    (now : Int) (pluginCache : Option CachedResponse) (st : AsyncPluginState) :
    AsyncTimeoutOutcome :=
  match pluginCache with
  | some c =>
    if c.Results.length > 0 then
      ⟨c.Results, some { c with LastAccess := now, AccessCount := c.AccessCount + 1 }, st⟩
    else asyncTimeoutPlaceholder hasUpdater name mainCacheKey now st
  | none => asyncTimeoutPlaceholder hasUpdater name mainCacheKey now st

/-- The result merge of the background completion and refresh paths of
`AsyncSearch`: build the `existingIDs` set while appending the new results,
then append the old results whose `UniqueID` is not in the set. -/
def mergeNewOld (newResults oldResults : List SearchResult) : List SearchResult :=
  let step1 := newResults.foldl
    (fun (acc : List String × List SearchResult) r =>
      (r.UniqueID :: acc.1, acc.2 ++ [r])) ([], [])
  oldResults.foldl
    (fun acc r => if step1.1.contains r.UniqueID then acc else acc ++ [r]) step1.2

/-- The result list of an `Option CachedResponse`, empty when absent. -/
def oldCacheResults : Option CachedResponse → List SearchResult
  | none => []
  | some c => c.Results

/-- The list the background completion of `AsyncSearch` writes to the
per-plugin cache and promotes as final: the new results merged with the old
cache entry when one with results exists, else the new results alone. -/
def backgroundMergeWrite (oldCache : Option CachedResponse)
    (results : List SearchResult) : List SearchResult :=
  match oldCache with
  | some old =>
    if old.Results.length > 0 then mergeNewOld results old.Results else results
  | none => results

/-- The list `refreshCacheInBackground` writes and promotes as final, or
`none` when the fresh search produced no results (the error case is the
same `none`). -/
def refreshMergeWrite (oldResults newResults : List SearchResult) :
    Option (List SearchResult) :=
  if newResults.length == 0 then none
  else some (mergeNewOld newResults oldResults)

/-! ## Plugin list normalization in `Search` and the cache key -/

/-- Model of the plugin-parameter normalization block at the top of
`Search`: `none` models a Go `nil` slice.  For `tg` the list is dropped; for
`all` and `plugin` an empty list, an all-empty-strings list, or a list whose
lowercased non-empty entries exactly cover the lowercased registered names
with matching length is normalized to `none`; otherwise the list is left
unchanged (the allow-list filtering happens later in `searchPlugins`). -/
def normalizePlugins (sourceType : String) (plugins : Option (List String))
    (allPluginNames : List String) : Option (List String) :=
  if sourceType == "tg" then none
  else if sourceType == "all" || sourceType == "plugin" then
    match plugins with
    | none => none
    | some ps =>
      if ps.length == 0 then none
      else if !(ps.any (fun p => p != "")) then none
      else
        let allNames := allPluginNames.map goToLower
        let requested := (ps.filter (fun p => p != "")).map goToLower
        if requested.length == allNames.length &&
            allNames.all (fun n => requested.contains n) then none
        else some ps
  else plugins

/-- Insert a string into a `<`-sorted list. -/
def insertSortedStr (s : String) : List String → List String
  | [] => [s]
  | t :: ts => if s < t then s :: t :: ts else t :: insertSortedStr s ts

/-- Sort a string list lexicographically. -/
def sortStrings (l : List String) : List String := l.foldr insertSortedStr []

/-- Comma-join a string list. -/
def joinComma : List String → String
  | [] => ""
  | [s] => s
  | s :: rest => s ++ "," ++ joinComma rest

/-- Modelled from the spec: `cache.GeneratePluginCacheKey` is outside this
repository excerpt.  Per the spec, the plugin cache key source is
`plugin:` + lowercased trimmed keyword + `:` + plugins clause, where the
clause is `all` for a nil list and otherwise the sorted, comma-joined,
lowercased names; the final 128-bit digest is an injective wrapper and is
omitted, since only key equality matters here. -/
def generatePluginCacheKey (keyword : String) (plugins : Option (List String)) :
    String :=
  let clause :=
    match plugins with
    | none => "all"
    | some ps => joinComma (sortStrings (ps.map goToLower))
  "plugin:" ++ goToLower (goTrimSpace keyword) ++ ":" ++ clause

/-! ## Claim-side (specification) definitions, written from the spec text -/

/-- Claim-side plugin tier of a result: TG results use tier 3, plugin
results use the registry `Priority()` of the plugin named by the `UniqueID`
prefix, everything else tier 3. -/
def claimTier (registry : Registry) (r : SearchResult) : Int :=
  if r.Channel != "" then 3
  else if r.UniqueID != "" && goContains r.UniqueID "-" then
    match registry (prefixBeforeDash r.UniqueID) with
    | some p => p.priority
    | none => 3
  else 3

/-- Claim-side plugin score: 1000, 500, 0, -200 for tiers 1 to 4, 0
otherwise. -/
def claimPluginScore (tier : Int) : Int :=
  if tier = 1 then 1000
  else if tier = 2 then 500
  else if tier = 3 then 0
  else if tier = 4 then -200
  else 0

/-- Claim-side keyword score: the first token of the ordered priority list
contained in the case-folded title scores `(len - index) * 70`. -/
def claimKeywordScore (title : String) : Int :=
  match priorityKeywords.findIdx? (fun kw => goContains (goToLower title) kw) with
  | some i => ((priorityKeywords.length : Int) - (i : Int)) * 70
  | none => 0

/-- Claim-side time score: the piecewise recency value, 0 for the zero
time. -/
def claimTimeScore (now datetime : Int) : Int :=
  if datetime = 0 then 0
  else if now - datetime ≤ 1 * 86400 then 500
  else if now - datetime ≤ 3 * 86400 then 400
  else if now - datetime ≤ 7 * 86400 then 300
  else if now - datetime ≤ 30 * 86400 then 200
  else if now - datetime ≤ 90 * 86400 then 100
  else if now - datetime ≤ 365 * 86400 then 50
  else 20

/-- Claim-side total ranking score. -/
def claimTotalScore (registry : Registry) (now : Int) (r : SearchResult) : Int :=
  claimPluginScore (claimTier registry r) + claimKeywordScore r.Title +
    claimTimeScore now r.Datetime

/-! ## Concrete fixtures used by witnesses and counterexamples -/

/-- The empty registry. -/
def reg0 : Registry := fun _ => none

/-- A registry with one tier-1 plugin named `p1`. -/
def regT1 : Registry := fun n => if n = "p1" then some ⟨1, false⟩ else none

/-- A registry with one tier-2 plugin named `p1`. -/
def regT2 : Registry := fun n => if n = "p1" then some ⟨2, false⟩ else none

/-- A trivial title-pairing function (the real extractor returns the empty
map for empty content). -/
def pairs0 : TitlePairsFn := fun _ _ => []

/-- The identity title trimmer. -/
def cut0 : CutTitleFn := fun t => t

/-- A result with a non-zero timestamp and no links (C2 counterexample). -/
def cexZeroLinks : SearchResult := ⟨"x", "", "t", "", 5, "c", [], [], []⟩

/-- A tier-1 plugin result with zero timestamp and no priority keyword in
the title (C3 counterexample). -/
def cexTierOne : SearchResult :=
  ⟨"p1-9", "", "zz", "", 0, "", [], [], [⟨"u", "", "", "", 0⟩]⟩

/-- A link whose URL carries a percent-encoded CJK character. -/
def cexLinkEnc : Link := ⟨"q%E4%B8%AD", "", "", "w", 5⟩

/-- A link whose URL carries the same character literally. -/
def cexLinkRaw : Link := ⟨"q中", "", "", "w", 9⟩

/-- Carrier result of `cexLinkEnc` (C5 counterexample). -/
def cexResEnc : SearchResult := ⟨"", "", "tA", "", 5, "", [], [], [cexLinkEnc]⟩

/-- Carrier result of `cexLinkRaw` (C5 counterexample). -/
def cexResRaw : SearchResult := ⟨"", "", "tB", "", 9, "", [], [], [cexLinkRaw]⟩

/-- Zero-score result, first in input order (C7 counterexample). -/
def cexSortA : SearchResult := ⟨"", "", "a", "", 0, "", [], [], []⟩

/-- Zero-score result, second in input order (C7 counterexample). -/
def cexSortB : SearchResult := ⟨"", "", "b", "", 0, "", [], [], []⟩

/-- Result whose title contains the top priority keyword (C7
counterexample). -/
def cexSortC : SearchResult := ⟨"", "", "合集", "", 0, "", [], [], []⟩

/-- A plugin result of `p1` with a priority keyword (C6 witness). -/
def witScore : SearchResult := ⟨"p1-3", "", "最新abc", "", 500, "", [], [], []⟩

/-- Two same-URL links with different timestamps (C5 witness). -/
def witLinkOld : Link := ⟨"u", "", "", "w", 5⟩

/-- The later of the two same-URL links (C5 witness). -/
def witLinkNew : Link := ⟨"u", "", "", "w", 9⟩

/-- Carrier of `witLinkOld`. -/
def witResOld : SearchResult := ⟨"", "", "t1", "", 5, "", [], [], [witLinkOld]⟩

/-- Carrier of `witLinkNew`. -/
def witResNew : SearchResult := ⟨"", "", "t2", "", 9, "", [], [], [witLinkNew]⟩

/-! ## Helper lemmas -/

theorem updateMainCache_nil (h : Bool) (n : String) (st : AsyncPluginState)
    (k : String) (f : Bool) : updateMainCacheWithFinal h n st k [] f = st := by
  unfold updateMainCacheWithFinal
  split
  · rfl
  · simp

theorem mergeNewOld_foldl_ids (l : List SearchResult) (ids : List String)
    (acc : List SearchResult) :
    l.foldl (fun (a : List String × List SearchResult) r =>
        (r.UniqueID :: a.1, a.2 ++ [r])) (ids, acc) =
      (l.reverse.map (fun r => r.UniqueID) ++ ids, acc ++ l) := by
  induction l generalizing ids acc with
  | nil => simp
  | cons x xs ih => simp [ih]

theorem foldl_skip_append (P : SearchResult → Bool) (l acc : List SearchResult) :
    l.foldl (fun a r => if P r then a else a ++ [r]) acc =
      acc ++ l.filter (fun r => !P r) := by
  induction l generalizing acc with
  | nil => simp
  | cons x xs ih =>
    by_cases h : P x = true
    · simp [h, ih, List.filter_cons]
    · simp only [Bool.not_eq_true] at h
      simp [h, ih, List.filter_cons]

theorem beq_str_comm (a b : String) : (a == b) = (b == a) := by
  by_cases h : a = b
  · subst h; rfl
  · have h2 : ¬b = a := fun e => h e.symm
    simp [h, h2]

theorem contains_eq_any (l : List String) (x : String) :
    l.contains x = l.any (fun y => y == x) := by
  induction l with
  | nil => rfl
  | cons a as ih =>
    simp only [List.contains_cons, List.any_cons, ih, beq_str_comm x a]

theorem any_map_general {α β : Type} (f : α → β) (p : β → Bool) (l : List α) :
    (l.map f).any p = l.any (fun a => p (f a)) := by
  induction l with
  | nil => rfl
  | cons x xs ih => simp only [List.map_cons, List.any_cons, ih]

theorem mergeNewOld_eq (n o : List SearchResult) :
    mergeNewOld n o =
      n ++ o.filter (fun r => !(n.any (fun m => m.UniqueID == r.UniqueID))) := by
  unfold mergeNewOld
  rw [mergeNewOld_foldl_ids]
  simp only [List.append_nil, List.nil_append]
  rw [foldl_skip_append]
  congr 1
  apply List.filter_congr
  intro r _
  congr 1
  rw [contains_eq_any, List.map_reverse, List.any_reverse, any_map_general]

/-! ## Claim C10 -/

/-- C10: a call of `updateMainCacheWithFinal` with an empty result list, an
absent main-cache updater, or an empty cache key returns without invoking
the updater and without modifying the final-update tracker: the plugin state
is unchanged. -/
theorem updateMainCache_noop_frame (hasUpd : Bool) (name : String)
    (st : AsyncPluginState) (key : String) (results : List SearchResult)
    (isFinal : Bool) (h : results = [] ∨ hasUpd = false ∨ key = "") :
    updateMainCacheWithFinal hasUpd name st key results isFinal = st := by
  rcases h with h | h | h
  · subst h; exact updateMainCache_nil hasUpd name st key isFinal
  · subst h; unfold updateMainCacheWithFinal; simp
  · subst h; unfold updateMainCacheWithFinal; simp

/-- Witness for C10 at a concrete input. -/
theorem updateMainCache_noop_frame_witness :
    (([] : List SearchResult) = [] ∨ true = false ∨ "k" = "") ∧
      updateMainCacheWithFinal true "p" ⟨[], []⟩ "k" [] true = ⟨[], []⟩ :=
  ⟨Or.inl rfl, updateMainCache_noop_frame true "p" ⟨[], []⟩ "k" [] true (Or.inl rfl)⟩

/-! ## Claim C8 -/

/-- C8: final main-cache updates deduplicate through the tracker: a repeated
call with the identical arguments (hence the identical update key built from
the plugin name, the cache key, the results hash and the final flag) is a
no-op, and a single call invokes the main cache updater at most once. -/
theorem final_update_idempotent (hasUpd : Bool) (name : String)
    (st : AsyncPluginState) (key : String) (results : List SearchResult)
    (isFinal : Bool) :
    updateMainCacheWithFinal hasUpd name
        (updateMainCacheWithFinal hasUpd name st key results isFinal)
        key results isFinal =
      updateMainCacheWithFinal hasUpd name st key results isFinal ∧
    (updateMainCacheWithFinal hasUpd name st key results isFinal).writes.length ≤
      st.writes.length + 1 := by
  by_cases h1 : (!hasUpd || key == "") = true
  · constructor
    · simp [updateMainCacheWithFinal, h1]
    · simp [updateMainCacheWithFinal, h1]
  · by_cases h2 : (results.length == 0) = true
    · constructor
      · simp [updateMainCacheWithFinal, h1, h2]
      · simp [updateMainCacheWithFinal, h1, h2]
    · by_cases h3 : updateKeyOf name key results isFinal ∈ st.tracker
      · constructor
        · simp [updateMainCacheWithFinal, h1, h2, h3]
        · simp [updateMainCacheWithFinal, h1, h2, h3]
      · constructor
        · simp [updateMainCacheWithFinal, h1, h2, h3]
        · simp [updateMainCacheWithFinal, h1, h2, h3]

/-! ## Claim C1 (corrected) -/

/-- Counterexample to C1 as stated: when the response-budget timeout fires
with no usable per-plugin cache entry, the main cache updater is never
invoked (the promotion call carries the empty list and
`updateMainCacheWithFinal` skips empty result lists), so no main-cache entry
is created; the claim asserts an empty non-final update reaches the main
cache. -/
theorem asyncTimeout_no_main_cache_write :
    (asyncSearchOnTimeout true "plugin1" "mainkey" 7 none ⟨[], []⟩).state.writes
        = [] ∧
    (asyncSearchOnTimeout true "plugin1" "mainkey" 7 none ⟨[], []⟩).returned
        = [] ∧
    (asyncSearchOnTimeout true "plugin1" "mainkey" 7 none ⟨[], []⟩).pluginCache
        = some ⟨[], 7, false, 7, 1⟩ :=
  ⟨rfl, rfl, rfl⟩

/-- C1 (amended): when the timeout fires with no usable per-plugin cache
entry, the call writes the empty `Complete=false` placeholder into the
per-plugin cache and returns the empty list, but the main-cache promotion is
skipped by the empty-result guard of `updateMainCacheWithFinal`: the plugin
state (tracker and main-cache writes) is unchanged and no main-cache entry
is created. -/
theorem asyncSearch_timeout_placeholder (hasUpd : Bool) (name key : String)
    (now : Int) (pc : Option CachedResponse) (st : AsyncPluginState)
    (h : pc = none ∨ ∃ c, pc = some c ∧ c.Results = []) :
    asyncSearchOnTimeout hasUpd name key now pc st =
      ⟨[], some ⟨[], now, false, now, 1⟩, st⟩ := by
  rcases h with h | ⟨c, hc, hr⟩
  · subst h
    simp [asyncSearchOnTimeout, asyncTimeoutPlaceholder, updateMainCache_nil]
  · subst hc
    simp [asyncSearchOnTimeout, hr, asyncTimeoutPlaceholder, updateMainCache_nil]

/-- Witness for the amended C1 at a concrete input. -/
theorem asyncSearch_timeout_placeholder_witness :
    ((none : Option CachedResponse) = none ∨
        ∃ c, (none : Option CachedResponse) = some c ∧ c.Results = []) ∧
      asyncSearchOnTimeout true "plugin1" "mainkey" 7 none ⟨[], []⟩ =
        ⟨[], some ⟨[], 7, false, 7, 1⟩, ⟨[], []⟩⟩ :=
  ⟨Or.inl rfl,
   asyncSearch_timeout_placeholder true "plugin1" "mainkey" 7 none ⟨[], []⟩
     (Or.inl rfl)⟩

/-! ## Claim C4 -/

/-- C4: the list the background completion writes to the per-plugin cache
and promotes as final, and the list the background refresh writes, equal the
new results in original order followed by exactly those old cached results
whose `UniqueID` does not occur among the new results. -/
theorem background_merge_new_then_old (oc : Option CachedResponse)
    (oldRs newRs : List SearchResult) :
    backgroundMergeWrite oc newRs =
      newRs ++ (oldCacheResults oc).filter
        (fun r => !(newRs.any (fun m => m.UniqueID == r.UniqueID))) ∧
    refreshMergeWrite oldRs newRs =
      (if newRs.length == 0 then none
       else some (newRs ++ oldRs.filter
         (fun r => !(newRs.any (fun m => m.UniqueID == r.UniqueID))))) := by
  constructor
  · cases oc with
    | none => simp [backgroundMergeWrite, oldCacheResults]
    | some c =>
      by_cases h : c.Results.length > 0
      · simp [backgroundMergeWrite, oldCacheResults, h, mergeNewOld_eq]
      · have hnil : c.Results = [] := by
          cases hr : c.Results with
          | nil => rfl
          | cons a as => rw [hr] at h; simp at h
        simp [backgroundMergeWrite, oldCacheResults, h, hnil]
  · by_cases h : (newRs.length == 0) = true
    · simp [refreshMergeWrite, h]
    · simp [refreshMergeWrite, h, mergeNewOld_eq]

/-! ## Claim C9 -/

/-- C9: for `sourceType` `all` or `plugin`, a plugins list that is empty,
contains only empty strings, or whose lowercased non-empty entries are
exactly the lowercased registered plugin names (case-insensitive set
equality, no duplicates on either side) is normalized to nil, and therefore
the derived plugin cache key is the one derived for `plugins = nil` (all
downstream behaviour is computed from the normalized value). -/
theorem plugins_fullset_normalized_nil (sourceType keyword : String)
    (ps names : List String)
    (hsrc : sourceType = "all" ∨ sourceType = "plugin")
    (hcond : ps = [] ∨ (∀ p ∈ ps, p = "") ∨
      (((ps.filter (fun p => p != "")).map goToLower).Nodup ∧
       (names.map goToLower).Nodup ∧
       ((ps.filter (fun p => p != "")).map goToLower).all
         (fun x => (names.map goToLower).contains x) = true ∧
       (names.map goToLower).all
         (fun x => ((ps.filter (fun p => p != "")).map goToLower).contains x)
           = true)) :
    normalizePlugins sourceType (some ps) names = none ∧
    generatePluginCacheKey keyword (normalizePlugins sourceType (some ps) names) =
      generatePluginCacheKey keyword none := by
  have hnt : (sourceType == "tg") = false := by
    rcases hsrc with h | h <;> subst h <;> rfl
  have hsp : (sourceType == "all" || sourceType == "plugin") = true := by
    rcases hsrc with h | h <;> subst h <;> rfl
  have hmain : normalizePlugins sourceType (some ps) names = none := by
    unfold normalizePlugins
    rw [hnt, hsp]
    simp only [Bool.false_eq_true, if_false, if_true]
    rcases hcond with h | h | h
    · subst h; simp
    · have hany : ps.any (fun p => p != "") = false := by
        simp only [List.any_eq_false]
        intro x hx
        simp [h x hx]
      simp [hany]
    · obtain ⟨hnr, hna, hsub1, hsub2⟩ := h
      have hs1 : ∀ a ∈ (ps.filter (fun p => p != "")).map goToLower,
          a ∈ names.map goToLower := by
        intro a ha
        have h2 := List.all_eq_true.mp hsub1 a ha
        simpa using h2
      have hs2 : ∀ a ∈ names.map goToLower,
          a ∈ (ps.filter (fun p => p != "")).map goToLower := by
        intro a ha
        have h2 := List.all_eq_true.mp hsub2 a ha
        simpa using h2
      have hperm : ((ps.filter (fun p => p != "")).map goToLower).Perm
          (names.map goToLower) := by
        rw [List.perm_ext_iff_of_nodup hnr hna]
        exact fun a => ⟨hs1 a, hs2 a⟩
      have hlen := hperm.length_eq
      by_cases hl : (ps.length == 0) = true
      · simp [hl]
      · by_cases hany : (ps.any (fun p => p != "")) = true
        · simp only [hl, hany, hlen, if_true, if_false, Bool.false_eq_true]
          simp only [List.length_map] at hlen
          simp [hlen]
          intro x hx
          have hmem : goToLower x ∈ (ps.filter (fun p => p != "")).map goToLower :=
            hs2 _ (List.mem_map_of_mem _ hx)
          obtain ⟨y, hy, hgy⟩ := List.mem_map.mp hmem
          have hyf := List.mem_filter.mp hy
          exact ⟨y, hyf.1, by simpa using hyf.2, hgy⟩
        · simp [hl, hany]
  exact ⟨hmain, by rw [hmain]⟩

/-- Witness for C9 at a concrete input: the list `["B", "a"]` covers the
registered names `["a", "b"]` case-insensitively. -/
theorem plugins_fullset_normalized_nil_witness :
    (("plugin" : String) = "all" ∨ ("plugin" : String) = "plugin") ∧
    normalizePlugins "plugin" (some ["B", "a"]) ["a", "b"] = none ∧
    generatePluginCacheKey "K" (normalizePlugins "plugin" (some ["B", "a"]) ["a", "b"]) =
      generatePluginCacheKey "K" none := by
  refine ⟨Or.inr rfl, ?_⟩
  exact plugins_fullset_normalized_nil "plugin" "K" ["B", "a"] ["a", "b"]
    (Or.inr rfl) (Or.inr (Or.inr (by decide)))

/-! ## Claim C6: scoring decomposition -/

theorem keywordLoop_findIdx (t : String) (l : List String) (i : Nat) :
    keywordLoop t l i =
      match l.findIdx? (fun kw => goContains t kw) i with
      | some j => ((priorityKeywords.length : Int) - (j : Int)) * 70
      | none => 0 := by
  induction l generalizing i with
  | nil => rfl
  | cons kw rest ih =>
    rw [List.findIdx?_cons]
    by_cases h : goContains t kw = true
    · simp [keywordLoop, h]
    · simp only [keywordLoop, h, if_false, Bool.false_eq_true, ih]

theorem getKeywordPriority_eq_claim (title : String) :
    getKeywordPriority title = claimKeywordScore title := by
  unfold getKeywordPriority claimKeywordScore
  rw [keywordLoop_findIdx]

theorem splitCharAux_no_sep (sep : Char) (l : List Char) (h : sep ∉ l) :
    ∀ cur, splitCharAux sep l cur = [cur.reverse ++ l] := by
  induction l with
  | nil => intro cur; simp [splitCharAux]
  | cons c cs ih =>
    intro cur
    have hc : ¬c = sep := fun e => h (by simp [e])
    simp [splitCharAux, hc, ih (fun hm => h (List.mem_cons_of_mem _ hm))]

theorem splitCharAux_sep (sep : Char) (l₁ l₂ : List Char) (h : sep ∉ l₁) :
    ∀ cur, splitCharAux sep (l₁ ++ sep :: l₂) cur =
      (cur.reverse ++ l₁) :: splitCharAux sep l₂ [] := by
  induction l₁ with
  | nil => intro cur; simp [splitCharAux]
  | cons c cs ih =>
    intro cur
    have hc : ¬c = sep := fun e => h (by simp [e])
    simp [splitCharAux, hc, ih (fun hm => h (List.mem_cons_of_mem _ hm))]

theorem string_data_append (a b : String) : (a ++ b).data = a.data ++ b.data := by
  cases a; cases b; rfl

theorem levelBySource_tg (registry : Registry) (ch : String) :
    getPluginLevelBySource registry ("tg:" ++ ch) = 3 := by
  unfold getPluginLevelBySource goSplitOnChar
  have hd : ("tg:" ++ ch).data = "tg".data ++ ':' :: ch.data := by
    rw [string_data_append]; rfl
  rw [hd, splitCharAux_sep ':' "tg".data ch.data (by decide)]
  cases hrest : splitCharAux ':' ch.data [] with
  | nil => simp
  | cons a rest2 =>
    cases rest2 with
    | nil => simp
    | cons b rest3 => simp

theorem levelBySource_plugin (registry : Registry) (p : String)
    (h : ':' ∉ p.data) :
    getPluginLevelBySource registry ("plugin:" ++ p) =
      getPluginPriorityByName registry p := by
  unfold getPluginLevelBySource goSplitOnChar
  have hd : ("plugin:" ++ p).data = "plugin".data ++ ':' :: p.data := by
    rw [string_data_append]; rfl
  rw [hd, splitCharAux_sep ':' "plugin".data p.data (by decide),
    splitCharAux_no_sep ':' p.data h]
  simp

/-- C6: the ranking score of every result decomposes as
pluginScore + keywordScore + timeScore with the claimed value tables,
provided the plugin-name prefix of the `UniqueID` contains no colon (the
colon-separated source string could not be split back otherwise). -/
theorem score_decomposition (registry : Registry) (now : Int) (r : SearchResult)
    (h : r.Channel ≠ "" ∨ ':' ∉ (prefixBeforeDash r.UniqueID).data) :
    totalScoreOfResult registry now r = claimTotalScore registry now r := by
  have hk := getKeywordPriority_eq_claim r.Title
  have ht : calculateTimeScore now r.Datetime = claimTimeScore now r.Datetime := rfl
  have hp : getPluginLevelScore registry (getResultSource r) =
      claimPluginScore (claimTier registry r) := by
    unfold getResultSource claimTier
    by_cases hc : (r.Channel != "") = true
    · simp only [hc, if_true]
      unfold getPluginLevelScore
      rw [levelBySource_tg]
      rfl
    · by_cases hu : (r.UniqueID != "" && goContains r.UniqueID "-") = true
      · simp only [hc, hu, if_true, if_false, Bool.false_eq_true]
        have hpfx : ':' ∉ (prefixBeforeDash r.UniqueID).data := by
          rcases h with h | h
          · exfalso
            apply h
            simpa using hc
          · exact h
        unfold getPluginLevelScore
        rw [levelBySource_plugin registry _ hpfx]
        unfold getPluginPriorityByName
        cases registry (prefixBeforeDash r.UniqueID) with
        | some p => rfl
        | none => rfl
      · simp only [hc, hu, if_false, Bool.false_eq_true]
        have hu2 : goSplitOnChar ':' "unknown" = ["unknown"] := by decide
        unfold getPluginLevelScore
        rw [show getPluginLevelBySource registry "unknown" = 3 by
          unfold getPluginLevelBySource; rw [hu2]; simp]
        rfl
  unfold totalScoreOfResult mkScore claimTotalScore
  simp only [hk, ht, hp]
  omega

/-- Witness for C6 at a concrete input (a tier-2 plugin result with the
keyword `最新` in the title). -/
theorem score_decomposition_witness :
    (witScore.Channel ≠ "" ∨ ':' ∉ (prefixBeforeDash witScore.UniqueID).data) ∧
      totalScoreOfResult regT2 1000 witScore = claimTotalScore regT2 1000 witScore ∧
      totalScoreOfResult regT2 1000 witScore = 1210 :=
  ⟨Or.inr (by decide),
   score_decomposition regT2 1000 witScore (Or.inr (by decide)),
   by decide⟩

/-! ## Exchange sort lemmas -/

theorem innerPass_snd_length (x : ResultScore) (l : List ResultScore) :
    (innerPass x l).2.length = l.length := by
  induction l generalizing x with
  | nil => rfl
  | cons y ys ih =>
    unfold innerPass
    by_cases h : x.TotalScore < y.TotalScore <;> simp [h, ih]

theorem innerPass_perm (x : ResultScore) (l : List ResultScore) :
    ((innerPass x l).1 :: (innerPass x l).2).Perm (x :: l) := by
  induction l generalizing x with
  | nil => simp [innerPass]
  | cons y ys ih =>
    unfold innerPass
    by_cases h : x.TotalScore < y.TotalScore
    · simp only [h, if_true]
      exact (List.Perm.swap x (innerPass y ys).1 (innerPass y ys).2).trans
        ((ih y).cons x)
    · simp only [h, if_false]
      exact ((List.Perm.swap y (innerPass x ys).1 (innerPass x ys).2).trans
        ((ih x).cons y)).trans (List.Perm.swap x y ys)

theorem innerPass_fst_ge_carry (x : ResultScore) (l : List ResultScore) :
    x.TotalScore ≤ (innerPass x l).1.TotalScore := by
  induction l generalizing x with
  | nil => simp [innerPass]
  | cons y ys ih =>
    unfold innerPass
    by_cases h : x.TotalScore < y.TotalScore
    · simp only [h, if_true]
      exact le_trans (le_of_lt h) (ih y)
    · simp only [h, if_false]
      exact ih x

theorem innerPass_fst_ge_rest (x : ResultScore) (l : List ResultScore) :
    ∀ z ∈ (innerPass x l).2, z.TotalScore ≤ (innerPass x l).1.TotalScore := by
  induction l generalizing x with
  | nil => intro z hz; simp [innerPass] at hz
  | cons y ys ih =>
    unfold innerPass
    by_cases h : x.TotalScore < y.TotalScore
    · simp only [h, if_true]
      intro z hz
      rcases List.mem_cons.mp hz with hz | hz
      · subst hz; exact le_trans (le_of_lt h) (innerPass_fst_ge_carry y ys)
      · exact ih y z hz
    · simp only [h, if_false]
      intro z hz
      rcases List.mem_cons.mp hz with hz | hz
      · subst hz
        exact le_trans (le_of_not_lt h) (innerPass_fst_ge_carry x ys)
      · exact ih x z hz

theorem exchangeSortGo_perm (n : Nat) (l : List ResultScore) (h : l.length ≤ n) :
    (exchangeSortGo n l).Perm l := by
  induction n generalizing l with
  | zero =>
    cases l with
    | nil => simp [exchangeSortGo]
    | cons x xs => simp at h
  | succ n ih =>
    cases l with
    | nil => simp [exchangeSortGo]
    | cons x xs =>
      have hlen : (innerPass x xs).2.length ≤ n := by
        rw [innerPass_snd_length]
        simpa using h
      exact (((ih _ hlen).cons (innerPass x xs).1).trans (innerPass_perm x xs))

theorem exchangeSortGo_pairwise (n : Nat) (l : List ResultScore)
    (h : l.length ≤ n) :
    (exchangeSortGo n l).Pairwise (fun a b => b.TotalScore ≤ a.TotalScore) := by
  induction n generalizing l with
  | zero => simp [exchangeSortGo]
  | succ n ih =>
    cases l with
    | nil => simp [exchangeSortGo]
    | cons x xs =>
      have hlen : (innerPass x xs).2.length ≤ n := by
        rw [innerPass_snd_length]
        simpa using h
      refine List.Pairwise.cons ?_ (ih _ hlen)
      intro z hz
      have hz2 : z ∈ (innerPass x xs).2 :=
        ((exchangeSortGo_perm n _ hlen).mem_iff).mp hz
      exact innerPass_fst_ge_rest x xs z hz2

theorem map_result_mkScore (registry : Registry) (now : Int)
    (l : List SearchResult) :
    (l.map (mkScore registry now)).map (fun s => s.Result) = l := by
  induction l with
  | nil => rfl
  | cons x xs ih => simp [mkScore, ih]

theorem sortResults_perm (registry : Registry) (now : Int)
    (l : List SearchResult) :
    (sortResultsByTimeAndKeywords registry now l).Perm l := by
  unfold sortResultsByTimeAndKeywords exchangeSort
  have hp := exchangeSortGo_perm (l.map (mkScore registry now)).length
    (l.map (mkScore registry now)) le_rfl
  have h2 := hp.map (fun s => s.Result)
  rwa [map_result_mkScore] at h2

theorem sortResults_pairwise (registry : Registry) (now : Int)
    (l : List SearchResult) :
    (sortResultsByTimeAndKeywords registry now l).Pairwise
      (fun a b => totalScoreOfResult registry now b ≤
        totalScoreOfResult registry now a) := by
  unfold sortResultsByTimeAndKeywords exchangeSort
  rw [List.pairwise_map]
  have hpw := exchangeSortGo_pairwise (l.map (mkScore registry now)).length
    (l.map (mkScore registry now)) le_rfl
  have hmem : ∀ s ∈ exchangeSortGo (l.map (mkScore registry now)).length
      (l.map (mkScore registry now)),
      s.TotalScore = totalScoreOfResult registry now s.Result := by
    intro s hs
    have hin : s ∈ l.map (mkScore registry now) :=
      ((exchangeSortGo_perm _ _ le_rfl).mem_iff).mp hs
    obtain ⟨r, _, rfl⟩ := List.mem_map.mp hin
    rfl
  refine List.Pairwise.imp_of_mem ?_ hpw
  intro a b ha hb hab
  rw [← hmem a ha, ← hmem b hb]
  exact hab

/-! ## Claim C7 (corrected) -/

/-- Counterexample to C7 as stated: the exchange sort used by
`sortResultsByTimeAndKeywords` does not break ties by input order.  With
input scores 0, 0, 490 the two zero-score results come out in reversed
input order. -/
theorem sort_tie_not_input_order_cex :
    sortResultsByTimeAndKeywords reg0 0 [cexSortA, cexSortB, cexSortC] =
      [cexSortC, cexSortB, cexSortA] ∧
    totalScoreOfResult reg0 0 cexSortA = totalScoreOfResult reg0 0 cexSortB ∧
    cexSortA ≠ cexSortB ∧
    ([cexSortC, cexSortB, cexSortA] : List SearchResult) ≠
      [cexSortC, cexSortA, cexSortB] := by
  refine ⟨by decide, by decide, by decide, by decide⟩

/-- C7 (amended): `sortResultsByTimeAndKeywords` reorders the result list
into descending order of total score and is deterministic (it is a pure
function of its input), but equal-score results are not guaranteed to keep
their input order. -/
theorem sort_descending_perm (registry : Registry) (now : Int)
    (l : List SearchResult) :
    (sortResultsByTimeAndKeywords registry now l).Perm l ∧
    (sortResultsByTimeAndKeywords registry now l).Pairwise
      (fun a b => totalScoreOfResult registry now b ≤
        totalScoreOfResult registry now a) :=
  ⟨sortResults_perm registry now l, sortResults_pairwise registry now l⟩

/-! ## Claim C3 (corrected) -/

/-- Counterexample to C3 as stated: a tier-1 plugin result with zero
`Datetime` and no priority keyword is dropped from `Results` although its
tier is at most 2; the `Results` filter consults only the timestamp and the
keyword priority. -/
theorem results_filter_ignores_tier_cex :
    composeFilteredResults regT1 1000 [cexTierOne] = [] ∧
    claimTier regT1 cexTierOne = 1 ∧
    cexTierOne.Datetime = 0 := by
  refine ⟨by decide, by decide, by decide⟩

/-- C3 (amended): when `Search` composes the `Results` field, a result is
kept exactly when its `Datetime` is non-zero or its title matches a
priority keyword; the plugin tier plays no role.  The `MergedByType`
grouping is computed from the full unfiltered result list. -/
theorem results_filter_datetime_or_keyword (pairsFn : TitlePairsFn)
    (cutTitle : CutTitleFn) (registry : Registry) (now : Int)
    (results : List SearchResult) (keyword : String) (cloudTypes : List String)
    (r : SearchResult) :
    (r ∈ composeFilteredResults registry now results ↔
      r ∈ results ∧ (r.Datetime ≠ 0 ∨ 0 < getKeywordPriority r.Title)) ∧
    (composeSearchResponse pairsFn cutTitle registry now results keyword
        cloudTypes).MergedByType =
      mergeResultsByType pairsFn cutTitle registry results keyword cloudTypes := by
  constructor
  · unfold composeFilteredResults
    rw [List.mem_filter, (sortResults_perm registry now results).mem_iff]
    simp [resultKeptInResults]
  · rfl

/-- A zero-datetime result kept through the keyword arm (C3 witness). -/
def witFilter : SearchResult := ⟨"", "", "有最新字幕", "", 0, "", [], [], []⟩

/-- Witness for the amended C3 at a concrete input. -/
theorem results_filter_datetime_or_keyword_witness :
    witFilter ∈ composeFilteredResults reg0 1000 [witFilter] ∧
    (witFilter ∈ [witFilter] ∧
      (witFilter.Datetime ≠ 0 ∨ 0 < getKeywordPriority witFilter.Title)) := by
  have h := (results_filter_datetime_or_keyword pairs0 cut0 reg0 1000 [witFilter]
    "" [] witFilter).1
  have hr : witFilter ∈ [witFilter] ∧
      (witFilter.Datetime ≠ 0 ∨ 0 < getKeywordPriority witFilter.Title) :=
    ⟨by decide, Or.inr (by decide)⟩
  exact ⟨h.mpr hr, hr⟩

/-! ## Claim C2 (corrected) -/

/-- Counterexample to C2 as stated: a result with zero-length `Links` and a
non-zero `Datetime` appears in the `Results` field of the composed
response (no empty-link filter exists on the `Results` path). -/
theorem emptyLinks_result_in_results_cex :
    (composeSearchResponse pairs0 cut0 reg0 1000 [cexZeroLinks] "" []).Results =
      [cexZeroLinks] ∧
    cexZeroLinks.Links = [] := by
  refine ⟨by decide, by decide⟩

/-- C2 (amended): a result with zero-length `Links` contributes nothing to
`MergedByType` (inserting or removing it leaves the grouping unchanged),
but it is not filtered from `Results` or from ranking: with a non-zero
`Datetime` it appears in `Results`. -/
theorem emptyLinks_absent_mergedByType_but_in_results (pairsFn : TitlePairsFn)
    (cutTitle : CutTitleFn) (registry : Registry) (now : Int) (keyword : String)
    (cloudTypes : List String) (xs ys : List SearchResult) (r : SearchResult)
    (h : r.Links = []) :
    mergeResultsByType pairsFn cutTitle registry (xs ++ r :: ys) keyword
        cloudTypes =
      mergeResultsByType pairsFn cutTitle registry (xs ++ ys) keyword
        cloudTypes ∧
    (r.Datetime ≠ 0 → r ∈ composeFilteredResults registry now (xs ++ r :: ys)) := by
  constructor
  · have hc : resultCandidates pairsFn cutTitle registry keyword r = [] := by
      simp [resultCandidates, h]
    have hcands : mergedCandidates pairsFn cutTitle registry keyword (xs ++ r :: ys) =
        mergedCandidates pairsFn cutTitle registry keyword (xs ++ ys) := by
      unfold mergedCandidates
      simp [hc]
    have hcoll : ∀ uniq, collectOrderedLinks (xs ++ r :: ys) uniq =
        collectOrderedLinks (xs ++ ys) uniq := by
      intro uniq
      unfold collectOrderedLinks
      rw [List.foldl_append, List.foldl_append, List.foldl_cons, h]
      rfl
    unfold mergeResultsByType
    simp only [hcands, hcoll]
  · intro hd
    unfold composeFilteredResults
    rw [List.mem_filter, (sortResults_perm registry now (xs ++ r :: ys)).mem_iff]
    refine ⟨by simp, ?_⟩
    simp [resultKeptInResults, hd]

/-- Witness for the amended C2 at a concrete input. -/
theorem emptyLinks_witness :
    cexZeroLinks.Links = [] ∧
    mergeResultsByType pairs0 cut0 reg0 [cexZeroLinks] "" [] =
      mergeResultsByType pairs0 cut0 reg0 [] "" [] ∧
    cexZeroLinks ∈ composeFilteredResults reg0 1000 [cexZeroLinks] := by
  have h := emptyLinks_absent_mergedByType_but_in_results pairs0 cut0 reg0 1000
    "" [] [] [] cexZeroLinks rfl
  exact ⟨rfl, h.1, h.2 (by decide)⟩

/-! ## Association-list lemmas for the URL dedup map -/

theorem lookup_append_of_none {α : Type} (m : List (String × α)) (k : String)
    (v : α) (h : lookupStr m k = none) :
    lookupStr (m ++ [(k, v)]) k = some v := by
  induction m with
  | nil => simp [lookupStr]
  | cons e rest ih =>
    unfold lookupStr at h ⊢
    by_cases he : (e.1 == k) = true
    · simp [List.find?_cons, he] at h
    · simp only [List.cons_append, List.find?_cons, he] at h ⊢
      exact ih h

theorem lookup_append_other {α : Type} (m : List (String × α)) (k k' : String)
    (v : α) (h : k' ≠ k) :
    lookupStr (m ++ [(k, v)]) k' = lookupStr m k' := by
  induction m with
  | nil =>
    have : (k == k') = false := by
      simp
      exact fun e => h e.symm
    simp [lookupStr, this]
  | cons e rest ih =>
    unfold lookupStr at ih ⊢
    by_cases he : (e.1 == k') = true
    · simp [List.find?_cons, he]
    · simp only [List.cons_append, List.find?_cons, he]
      exact ih

theorem lookupStr_cons {α : Type} (e : String × α) (rest : List (String × α))
    (k : String) :
    lookupStr (e :: rest) k =
      if (e.1 == k) = true then some e.2 else lookupStr rest k := by
  unfold lookupStr
  by_cases he : (e.1 == k) = true
  · rw [List.find?_cons_of_pos rest he, if_pos he]
    rfl
  · rw [List.find?_cons_of_neg rest he, if_neg he]

theorem lookup_updateAssoc_self (m : List (String × MergedLink)) (k : String)
    (v w : MergedLink) (h : lookupStr m k = some w) :
    lookupStr (updateAssoc m k v) k = some v := by
  induction m with
  | nil => simp [lookupStr] at h
  | cons e rest ih =>
    rw [lookupStr_cons] at h
    show lookupStr ((if (e.1 == k) = true then (k, v) else e) :: updateAssoc rest k v) k
      = some v
    rw [lookupStr_cons]
    by_cases he : (e.1 == k) = true
    · rw [if_pos he]
      have hkk : (((k, v) : String × MergedLink).1 == k) = true := by simp
      rw [if_pos hkk]
    · rw [if_neg he]
      rw [if_neg he] at h
      rw [if_neg he]
      exact ih h

theorem lookup_updateAssoc_other (m : List (String × MergedLink)) (k k' : String)
    (v : MergedLink) (h : k' ≠ k) :
    lookupStr (updateAssoc m k v) k' = lookupStr m k' := by
  induction m with
  | nil => rfl
  | cons e rest ih =>
    show lookupStr ((if (e.1 == k) = true then (k, v) else e) :: updateAssoc rest k v) k'
      = lookupStr (e :: rest) k'
    rw [lookupStr_cons, lookupStr_cons]
    by_cases he : (e.1 == k) = true
    · have he2 : e.1 = k := beq_iff_eq.mp he
      have hk : (((k, v) : String × MergedLink).1 == k') = false := by
        simp
        exact fun x => h x.symm
      have hk2 : (e.1 == k') = false := by
        rw [he2]
        simpa using fun x => h x.symm
      rw [if_pos he, hk, hk2]
      simp only [Bool.false_eq_true, if_false]
      exact ih
    · rw [if_neg he]
      by_cases he' : (e.1 == k') = true
      · rw [if_pos he', if_pos he']
      · rw [if_neg he', if_neg he']
        exact ih

theorem insertUnique_lookup_self (m : List (String × MergedLink))
    (ml : MergedLink) :
    ∃ v, lookupStr (insertUnique m ml) ml.URL = some v ∧
      ml.Datetime ≤ v.Datetime ∧
      (∀ old, lookupStr m ml.URL = some old → old.Datetime ≤ v.Datetime) := by
  unfold insertUnique
  cases hl : lookupStr m ml.URL with
  | none =>
    refine ⟨ml, lookup_append_of_none m ml.URL ml hl, le_refl _, ?_⟩
    intro old hold
    exact absurd hold (by simp)
  | some ex =>
    by_cases hd : ex.Datetime < ml.Datetime
    · simp only [hd, if_true]
      refine ⟨ml, lookup_updateAssoc_self m ml.URL ml ex hl, le_refl _, ?_⟩
      intro old hold
      obtain rfl : ex = old := Option.some.inj hold
      exact le_of_lt hd
    · simp only [hd, if_false]
      refine ⟨ex, hl, le_of_not_lt hd, ?_⟩
      intro old hold
      obtain rfl : ex = old := Option.some.inj hold
      exact le_refl _

theorem insertUnique_lookup_other (m : List (String × MergedLink))
    (ml : MergedLink) (url : String) (h : url ≠ ml.URL) :
    lookupStr (insertUnique m ml) url = lookupStr m url := by
  unfold insertUnique
  cases hl : lookupStr m ml.URL with
  | none => exact lookup_append_other m ml.URL url ml h
  | some ex =>
    by_cases hd : ex.Datetime < ml.Datetime
    · simp only [hd, if_true]
      exact lookup_updateAssoc_other m ml.URL url ml h
    · simp only [hd, if_false]

theorem insertUnique_mono (m : List (String × MergedLink)) (d : MergedLink)
    (url : String) (v : MergedLink) (h : lookupStr m url = some v) :
    ∃ v', lookupStr (insertUnique m d) url = some v' ∧
      v.Datetime ≤ v'.Datetime := by
  by_cases hu : url = d.URL
  · subst hu
    obtain ⟨v', h1, _, h3⟩ := insertUnique_lookup_self m d
    exact ⟨v', h1, h3 v h⟩
  · exact ⟨v, by rw [insertUnique_lookup_other m d url hu]; exact h, le_refl _⟩

theorem foldl_insertUnique_dominates (cands : List MergedLink)
    (m : List (String × MergedLink)) (c : MergedLink)
    (hc : c ∈ cands ∨ ∃ v, lookupStr m c.URL = some v ∧ c.Datetime ≤ v.Datetime) :
    ∃ v, lookupStr (cands.foldl insertUnique m) c.URL = some v ∧
      c.Datetime ≤ v.Datetime := by
  induction cands generalizing m with
  | nil =>
    rcases hc with hc | hc
    · exact absurd hc (by simp)
    · exact hc
  | cons d ds ih =>
    rw [List.foldl_cons]
    rcases hc with hmem | ⟨v, hv, hle⟩
    · rcases List.mem_cons.mp hmem with rfl | hds
      · obtain ⟨v₀, h1, h2, _⟩ := insertUnique_lookup_self m c
        exact ih (insertUnique m c) (Or.inr ⟨v₀, h1, h2⟩)
      · exact ih (insertUnique m d) (Or.inl hds)
    · obtain ⟨v', hv', hle'⟩ := insertUnique_mono m d c.URL v hv
      exact ih (insertUnique m d) (Or.inr ⟨v', hv', le_trans hle hle'⟩)

theorem uniqueLinksMap_max (cands : List MergedLink) (url : String)
    (v : MergedLink) (hv : lookupStr (uniqueLinksMap cands) url = some v)
    (c : MergedLink) (hcm : c ∈ cands) (hurl : c.URL = url) :
    c.Datetime ≤ v.Datetime := by
  obtain ⟨v', hv', hle⟩ :=
    foldl_insertUnique_dominates cands [] c (Or.inl hcm)
  unfold uniqueLinksMap at hv
  rw [hurl] at hv'
  obtain rfl : v = v' := Option.some.inj (hv.symm.trans hv')
  exact hle

/-! ## Key-value invariant of the dedup map and ordered collection -/

theorem insertUnique_keyval (m : List (String × MergedLink)) (ml : MergedLink)
    (hm : ∀ e ∈ m, e.2.URL = e.1) :
    ∀ e ∈ insertUnique m ml, e.2.URL = e.1 := by
  unfold insertUnique
  cases hl : lookupStr m ml.URL with
  | none =>
    intro e he
    rcases List.mem_append.mp he with he | he
    · exact hm e he
    · have he2 : e = (ml.URL, ml) := by simpa using he
      subst he2
      rfl
  | some ex =>
    by_cases hd : ex.Datetime < ml.Datetime
    · simp only [hd, if_true]
      intro e he
      unfold updateAssoc at he
      obtain ⟨e', he', heq⟩ := List.mem_map.mp he
      by_cases hk : (e'.1 == ml.URL) = true
      · rw [if_pos hk] at heq
        subst heq
        rfl
      · rw [if_neg hk] at heq
        subst heq
        exact hm e' he'
    · simp only [hd, if_false]
      exact hm

theorem foldl_insertUnique_keyval (cands : List MergedLink)
    (m : List (String × MergedLink)) (hm : ∀ e ∈ m, e.2.URL = e.1) :
    ∀ e ∈ cands.foldl insertUnique m, e.2.URL = e.1 := by
  induction cands generalizing m with
  | nil => exact hm
  | cons c cs ih =>
    rw [List.foldl_cons]
    exact ih (insertUnique m c) (insertUnique_keyval m c hm)

theorem uniq_keyval (cands : List MergedLink) :
    ∀ e ∈ uniqueLinksMap cands, e.2.URL = e.1 :=
  foldl_insertUnique_keyval cands [] (by simp)

theorem lookup_some_url (m : List (String × MergedLink))
    (hkv : ∀ e ∈ m, e.2.URL = e.1) (k : String) (v : MergedLink)
    (h : lookupStr m k = some v) : v.URL = k := by
  unfold lookupStr at h
  cases hf : m.find? (fun e => e.1 == k) with
  | none =>
    rw [hf] at h
    exact absurd h (by simp)
  | some e =>
    rw [hf] at h
    have hv : e.2 = v := by simpa using h
    have hmem := List.mem_of_find?_eq_some hf
    have hpred := List.find?_some hf
    have hpred2 : e.1 = k := by simpa using hpred
    rw [← hv, hkv e hmem]
    exact hpred2

theorem collectOrderedStep_pairwise (uniq : List (String × MergedLink))
    (hkv : ∀ e ∈ uniq, e.2.URL = e.1) (acc : List MergedLink) (link : Link)
    (hacc : acc.Pairwise (fun a b => a.URL ≠ b.URL)) :
    (collectOrderedStep uniq acc link).Pairwise (fun a b => a.URL ≠ b.URL) := by
  unfold collectOrderedStep
  cases hl : lookupStr uniq link.URL with
  | none => exact hacc
  | some ml =>
    show (if (acc.any fun ex => ex.URL == link.URL) = true then acc
      else acc ++ [ml]).Pairwise (fun a b => a.URL ≠ b.URL)
    by_cases hin : (acc.any fun ex => ex.URL == link.URL) = true
    · rw [if_pos hin]
      exact hacc
    · rw [if_neg hin]
      rw [List.pairwise_append]
      refine ⟨hacc, by simp, ?_⟩
      intro a ha b hb
      have hb2 : b = ml := by simpa using hb
      have hml : ml.URL = link.URL := lookup_some_url uniq hkv _ _ hl
      rw [hb2, hml]
      have hfa : ∀ x ∈ acc, ¬x.URL = link.URL := by simpa using hin
      exact hfa a ha

theorem foldl_collect_links_pairwise (uniq : List (String × MergedLink))
    (hkv : ∀ e ∈ uniq, e.2.URL = e.1) (links : List Link) (acc : List MergedLink)
    (hacc : acc.Pairwise (fun a b => a.URL ≠ b.URL)) :
    (links.foldl (collectOrderedStep uniq) acc).Pairwise
      (fun a b => a.URL ≠ b.URL) := by
  induction links generalizing acc with
  | nil => exact hacc
  | cons l ls ih =>
    rw [List.foldl_cons]
    exact ih _ (collectOrderedStep_pairwise uniq hkv acc l hacc)

theorem collectOrderedLinks_pairwise (results : List SearchResult)
    (uniq : List (String × MergedLink)) (hkv : ∀ e ∈ uniq, e.2.URL = e.1) :
    (collectOrderedLinks results uniq).Pairwise (fun a b => a.URL ≠ b.URL) := by
  unfold collectOrderedLinks
  suffices h : ∀ acc : List MergedLink, acc.Pairwise (fun a b => a.URL ≠ b.URL) →
      (results.foldl (fun acc r => r.Links.foldl (collectOrderedStep uniq) acc)
        acc).Pairwise (fun a b => a.URL ≠ b.URL) by
    exact h [] (by simp)
  induction results with
  | nil => intro acc hacc; exact hacc
  | cons r rs ih =>
    intro acc hacc
    rw [List.foldl_cons]
    exact ih _ (foldl_collect_links_pairwise uniq hkv r.Links acc hacc)

/-! ## Grouping preserves the links up to permutation -/

theorem flatten_insertBucket (m : MergedLinks) (t : String) (ml : MergedLink) :
    (flattenMergedLinks (insertBucket m t ml)).Perm
      (flattenMergedLinks m ++ [ml]) := by
  induction m with
  | nil =>
    simp [insertBucket, flattenMergedLinks]
  | cons b rest ih =>
    unfold insertBucket
    by_cases hb : (b.1 == t) = true
    · rw [if_pos hb]
      show ((b.2 ++ [ml]) ++ flattenMergedLinks rest).Perm
        ((b.2 ++ flattenMergedLinks rest) ++ [ml])
      rw [List.append_assoc, List.append_assoc]
      exact List.Perm.append_left b.2 (List.perm_append_singleton ml _).symm
    · rw [if_neg hb]
      show (b.2 ++ flattenMergedLinks (insertBucket rest t ml)).Perm
        ((b.2 ++ flattenMergedLinks rest) ++ [ml])
      rw [List.append_assoc]
      exact List.Perm.append_left b.2 ih

theorem flatten_groupByType_perm (ls : List MergedLink) :
    (flattenMergedLinks (groupByType ls)).Perm ls := by
  unfold groupByType
  suffices h : ∀ m : MergedLinks,
      (flattenMergedLinks (ls.foldl
        (fun m ml => insertBucket m (determineLinkType ml.URL) ml) m)).Perm
        (flattenMergedLinks m ++ ls) by
    simpa using h []
  induction ls with
  | nil => intro m; simp
  | cons x xs ih =>
    intro m
    rw [List.foldl_cons]
    have h1 := ih (insertBucket m (determineLinkType x.URL) x)
    have h2 := flatten_insertBucket m (determineLinkType x.URL) x
    have h3 : (flattenMergedLinks m ++ [x]) ++ xs =
        flattenMergedLinks m ++ x :: xs := by
      rw [List.append_assoc]
      rfl
    exact h1.trans (h3 ▸ (h2.append_right xs))

theorem flatten_sublist_of_sublist (mA mB : MergedLinks) (h : mA.Sublist mB) :
    (flattenMergedLinks mA).Sublist (flattenMergedLinks mB) := by
  induction h with
  | slnil => exact List.Sublist.refl _
  | cons b _ ih =>
    exact ih.trans (List.sublist_append_right b.2 _)
  | cons₂ b _ ih =>
    exact ih.append_left b.2

/-! ## Claim C5 (corrected) -/

theorem mergeResultsByType_flatten_pairwise (pairsFn : TitlePairsFn)
    (cutTitle : CutTitleFn) (registry : Registry) (results : List SearchResult)
    (keyword : String) (cloudTypes : List String) :
    (flattenMergedLinks (mergeResultsByType pairsFn cutTitle registry results
      keyword cloudTypes)).Pairwise (fun a b => a.URL ≠ b.URL) := by
  have hkv := uniq_keyval (mergedCandidates pairsFn cutTitle registry keyword results)
  have hord := collectOrderedLinks_pairwise results
    (uniqueLinksMap (mergedCandidates pairsFn cutTitle registry keyword results)) hkv
  have hperm := flatten_groupByType_perm (collectOrderedLinks results
    (uniqueLinksMap (mergedCandidates pairsFn cutTitle registry keyword results)))
  have hgrp := (List.Perm.pairwise_iff (fun h => Ne.symm h) hperm).mpr hord
  unfold mergeResultsByType
  by_cases hct : cloudTypes.length > 0
  · rw [if_pos hct]
    have hsub : (filterLinksByCloudTypes (groupByType (collectOrderedLinks results
        (uniqueLinksMap (mergedCandidates pairsFn cutTitle registry keyword
          results)))) cloudTypes).Sublist
        (groupByType (collectOrderedLinks results
          (uniqueLinksMap (mergedCandidates pairsFn cutTitle registry keyword
            results)))) := by
      unfold filterLinksByCloudTypes
      exact List.filter_sublist _
    exact List.Pairwise.sublist (flatten_sublist_of_sublist _ _ hsub) hgrp
  · rw [if_neg hct]
    exact hgrp

/-- Counterexample to C5 as stated: the dedup map of `mergeResultsByType` is
keyed by the raw URL, not the normalized URL (`normalizeUrl` is used only in
the single-line title extractor), so two links whose URLs differ only by
percent-encoding both survive: the output holds two `MergedLink`s whose URLs
decode to the same byte string. -/
theorem mergedByType_normalized_url_collision_cex :
    (flattenMergedLinks (mergeResultsByType pairs0 cut0 reg0
        [cexResEnc, cexResRaw] "" [])).map (fun l => l.URL) =
      ["q%E4%B8%AD", "q中"] ∧
    normalizeUrl "q%E4%B8%AD" = normalizeUrl "q中" ∧
    ("q%E4%B8%AD" : String) ≠ "q中" ∧
    ¬ ((flattenMergedLinks (mergeResultsByType pairs0 cut0 reg0
        [cexResEnc, cexResRaw] "" [])).Pairwise
      (fun a b => normalizeUrl a.URL ≠ normalizeUrl b.URL)) := by
  refine ⟨by decide, by decide, by decide, by decide⟩

/-- C5 (amended): in the `MergedByType` mapping no two `MergedLink`s across
all type buckets share a raw URL (deduplication is keyed by the exact URL
string, without percent-decoding), and among the same-URL candidate links
the one stored in the dedup map carries the maximal `Datetime` (a strictly
later candidate replaces the stored one, so the later `Datetime` wins). -/
theorem mergedByType_dedup_exact_url (pairsFn : TitlePairsFn)
    (cutTitle : CutTitleFn) (registry : Registry) (results : List SearchResult)
    (keyword : String) (cloudTypes : List String) :
    (flattenMergedLinks (mergeResultsByType pairsFn cutTitle registry results
      keyword cloudTypes)).Pairwise (fun a b => a.URL ≠ b.URL) ∧
    (∀ url v, lookupStr (uniqueLinksMap (mergedCandidates pairsFn cutTitle
        registry keyword results)) url = some v →
      ∀ c ∈ mergedCandidates pairsFn cutTitle registry keyword results,
        c.URL = url → c.Datetime ≤ v.Datetime) :=
  ⟨mergeResultsByType_flatten_pairwise pairsFn cutTitle registry results keyword
     cloudTypes,
   fun url v hv c hc hurl => uniqueLinksMap_max _ url v hv c hc hurl⟩

/-- Witness for the amended C5 at a concrete input: of two same-URL links
with timestamps 5 and 9 the stored one has timestamp 9 and dominates. -/
theorem mergedByType_dedup_exact_url_witness :
    (flattenMergedLinks (mergeResultsByType pairs0 cut0 reg0
      [witResOld, witResNew] "" [])).Pairwise (fun a b => a.URL ≠ b.URL) ∧
    (⟨"u", "", "w", 5, "unknown", []⟩ : MergedLink).Datetime ≤
      (⟨"u", "", "w", 9, "unknown", []⟩ : MergedLink).Datetime := by
  refine ⟨(mergedByType_dedup_exact_url pairs0 cut0 reg0 [witResOld, witResNew]
    "" []).1, ?_⟩
  exact (mergedByType_dedup_exact_url pairs0 cut0 reg0 [witResOld, witResNew]
    "" []).2 "u" ⟨"u", "", "w", 9, "unknown", []⟩ (by decide)
    ⟨"u", "", "w", 5, "unknown", []⟩ (by decide) (by decide)

end PanSou
